import Mathlib

/-!
Verification of the multithread file-transfer client
(src/filetransferclient.py) against its natural-language specification.

The client partitions a file of `file_size` bytes into `chunk_count`
inclusive byte ranges (the chunk planner appears twice, in `upload_file`
lines 107-111 and `download_file` lines 159-169, with identical
arithmetic), frames commands as a 1-byte code plus a 4-byte big-endian
length, reads exact byte counts from a stream with `recv_all`, and wraps
every operation in a catch-all handler that prints a message instead of
raising.  The definitions below embed those parts of the source; machine
integers are modelled as Nat/Int with the bounds the Python `struct`
formats enforce.
-/

namespace FileTransfer

/-- Chunk planner, line 107 and line 159: `chunk_size = file_size // chunk_count`
(Python integer floor division on non-negative operands). -/
def chunk_size (file_size chunk_count : ℕ) : ℕ := file_size / chunk_count

/-- Chunk planner, line 110 and line 168: `start_byte = i * chunk_size`. -/
def start_byte (file_size chunk_count i : ℕ) : ℕ :=
  i * chunk_size file_size chunk_count

/-- Chunk planner, line 111 and line 169:
`end_byte = (file_size - 1) if (i == chunk_count - 1) else (start_byte + chunk_size - 1)`.
Python subtraction on int is exact, so the result can be negative; the model
therefore lives in ℤ. -/
def end_byte (file_size chunk_count i : ℕ) : ℤ :=
  if i = chunk_count - 1 then (file_size : ℤ) - 1
  else (start_byte file_size chunk_count i : ℤ) + chunk_size file_size chunk_count - 1

/-- The inclusive byte range handed to chunk worker `i`. -/
def chunk_range (file_size chunk_count i : ℕ) : ℤ × ℤ :=
  ((start_byte file_size chunk_count i : ℤ), end_byte file_size chunk_count i)

/-- The ordered list of ranges produced by the loop `for i in range(chunk_count)`. -/
def chunkRanges (file_size chunk_count : ℕ) : List (ℤ × ℤ) :=
  (List.range chunk_count).map (chunk_range file_size chunk_count)

/-- Membership of a byte offset in an inclusive-inclusive range. -/
def inRange (r : ℤ × ℤ) (x : ℤ) : Prop := r.1 ≤ x ∧ x ≤ r.2

instance (r : ℤ × ℤ) (x : ℤ) : Decidable (inRange r x) := by
  unfold inRange; exact inferInstance

/-- recv_all (lines 37-44): loop `while len(data) < length`, each iteration calling
`sock.recv(length - len(data))` and raising ConnectionError when recv returns the
empty bytes object (the peer closed).  The socket is modelled by `rem`, the bytes
the stream will deliver before closing, and `sched`, the packet sizes the network
chooses for successive recv calls (a blocking recv returns at least one byte when
data is available and never more than requested, hence `max 1` and `min`).
`none` models the raised ConnectionError; `some` the returned buffer. -/
def recv_all (rem sched : List ℕ) (length : ℕ) (data : List ℕ) : Option (List ℕ) :=
  if h : data.length < length then
    match rem with
    | [] => none
    | b :: rest =>
      recv_all
        ((b :: rest).drop
          (min (length - data.length) (max 1 (sched.headD (length - data.length)))))
        sched.tail length
        (data ++ (b :: rest).take
          (min (length - data.length) (max 1 (sched.headD (length - data.length)))))
  else some data
termination_by rem.length
decreasing_by
  simp only [List.length_drop, List.length_cons]
  omega

/-- struct.pack('!B', v) and each byte of struct.pack('!I', v): big-endian bytes. -/
def u32be (v : ℕ) : List ℕ :=
  [v / 2 ^ 24 % 256, v / 2 ^ 16 % 256, v / 2 ^ 8 % 256, v % 256]

/-- send_command (lines 25-26): `struct.pack('!BI', command, data_length)`, the
fixed 5-byte header.  struct.error is raised (modelled as `none`) unless the
command fits one unsigned byte and the length fits four unsigned bytes. -/
def send_command_bytes (command data_length : ℕ) : Option (List ℕ) :=
  if command < 256 ∧ data_length < 2 ^ 32 then some (command :: u32be data_length)
  else none

/-- Modelled from the spec: the decoder of the fixed 5-byte request header is the
server side of the protocol and is not part of src/; section 6 of the spec fixes
the layout as 1 byte command code followed by a 4-byte unsigned big-endian
payload length. -/
def decode_header (bs : List ℕ) : Option (ℕ × ℕ) :=
  match bs with
  | [c, b0, b1, b2, b3] => some (c, b0 * 2 ^ 24 + b1 * 2 ^ 16 + b2 * 2 ^ 8 + b3)
  | _ => none

/-- send_int (lines 28-29): `struct.pack('!I', value)` raises struct.error
(modelled as `none`) unless 0 ≤ value < 2^32. -/
def pack_u32 (value : ℤ) : Option (List ℕ) :=
  if 0 ≤ value ∧ value < 2 ^ 32 then some (u32be value.toNat) else none

/-- Outcome of one chunk worker: it either completes, having moved the given
number of data bytes, or catches an exception and reports it (lines 89-90). -/
inductive ChunkOutcome where
  | completed (sentBytes : ℕ)
  | errorCaught (msg : String)
deriving DecidableEq

/-- upload_chunk (lines 70-90): after connecting and sending the UPLOAD_CHUNK
header and file name, the worker sends the start and end offsets with send_int
(struct.pack !I), seeks to start_byte and reads `end_byte - start_byte + 1`
bytes from the source file (a negative count makes Python file.read return the
whole rest of the file), and sends them.  Any exception inside the worker is
caught by its handler, printed, and the worker returns. -/
def upload_chunk (file_data : List ℕ) (start_off end_off : ℤ) : ChunkOutcome :=
  match pack_u32 start_off with
  | none => .errorCaught "struct.error: argument out of range"
  | some _ =>
    match pack_u32 end_off with
    | none => .errorCaught "struct.error: argument out of range"
    | some _ =>
      .completed
        (if end_off - start_off + 1 < 0 then (file_data.drop start_off.toNat).length
         else ((file_data.drop start_off.toNat).take (end_off - start_off + 1).toNat).length)

/-- ping (lines 48-57): connect, send PING, read one boolean; the whole exchange
sits in a try block whose handler prints the error and returns False.  The
transport exchange is modelled by its outcome: `Except.error` when connect,
send or recv raises, `Except.ok b` when the server answers `b`. -/
def ping (transport : Except String Bool) : Bool :=
  match transport with
  | .error _ => false
  | .ok b => b

/-- Observable outcome of one upload_file call: what escapes to the caller,
what the catch-all handler printed, how many chunk worker threads were started
and (each worker opening exactly one UPLOAD_CHUNK connection, line 72) how many
such connections are issued. -/
structure UploadResult where
  raisedToCaller : Option String
  reported : Option String
  workersStarted : ℕ
  uploadChunkConnections : ℕ
deriving DecidableEq

/-- Body of upload_file inside its try block (lines 93-118): connect, send
REQUEST_UPLOAD and the name, read the exists flag (`negotiation` is that
exchange's outcome), raise FileExistsError when the flag is true, otherwise
send the size and launch one worker per chunk, joining them all. -/
def upload_file_body (negotiation : Except String Bool) (chunk_count : ℕ) :
    Except String ℕ :=
  match negotiation with
  | .error e => .error e
  | .ok true => .error "File has already existed on the server"
  | .ok false => .ok chunk_count

/-- upload_file (lines 92-121): the try body wrapped in `except Exception`,
which prints `[FILE UPLOAD ERROR]: ...` and returns normally, raising nothing
to the caller. -/
def upload_file (negotiation : Except String Bool) (chunk_count : ℕ) : UploadResult :=
  match upload_file_body negotiation chunk_count with
  | .ok n =>
    { raisedToCaller := none, reported := none,
      workersStarted := n, uploadChunkConnections := n }
  | .error e =>
    { raisedToCaller := none, reported := some ("[FILE UPLOAD ERROR]: " ++ e),
      workersStarted := 0, uploadChunkConnections := 0 }

/-- Observable outcome of one download_file call: what escapes to the caller,
what the catch-all handler printed, the destination file content afterwards
(none when no file of that name exists locally), and the number of chunk
worker threads started. -/
structure DownloadResult where
  raisedToCaller : Option String
  reported : Option String
  localFile : Option (List ℕ)
  workersStarted : ℕ
deriving DecidableEq

/-- The offset passed to file.seek during preallocation (line 163):
`file_size - 1`, an exact Python int, negative when file_size = 0; seek raises
ValueError on a negative offset. -/
def seek_offset (file_size : ℕ) : ℤ := (file_size : ℤ) - 1

/-- A positioned write into a file opened for updating: bytes before `off` are
kept (zero-extended when the file is shorter than `off`), `data` replaces the
bytes at offsets off .. off + data.length - 1, and the tail beyond is kept. -/
def writeAt (content : List ℕ) (off : ℕ) (data : List ℕ) : List ℕ :=
  content.take off ++ List.replicate (off - content.length) 0 ++ data ++
    content.drop (off + data.length)

/-- Effect of download_chunk worker `i` (lines 123-143) on the destination file:
a worker whose connection, offset encoding or recv fails writes nothing (its
exception is caught and printed before `file.write` runs, since recv_all
collects the whole range first); a successful worker writes its received range
at its planned start offset.  `chunk_data i` is that outcome. -/
def apply_chunk (file_size chunk_count : ℕ) (chunk_data : ℕ → Option (List ℕ))
    (content : List ℕ) (i : ℕ) : List ℕ :=
  match chunk_data i with
  | none => content
  | some d => writeAt content (start_byte file_size chunk_count i) d

/-- download_file (lines 145-179): check the destination directory, negotiate
{exists, size} on a control connection (`negotiation` is that exchange's
outcome), raise FileNotFoundError when the remote file is missing, open the
destination with mode wb — which truncates or creates it as an empty file —
then seek to size-1 and write one zero byte, launch one worker per chunk and
join them.  The whole body sits in a try block that prints
`[FILE DOWNLOAD ERROR] ...` and returns, raising nothing.  `prior` is the
content of a pre-existing local file of the same name, if any. -/
def download_file (destExists : Bool) (negotiation : Except String (Bool × ℕ))
    (chunk_count : ℕ) (prior : Option (List ℕ))
    (chunk_data : ℕ → Option (List ℕ)) : DownloadResult :=
  if destExists = false then
    { raisedToCaller := none,
      reported := some "[FILE DOWNLOAD ERROR] Destination folder does not exist",
      localFile := prior, workersStarted := 0 }
  else
    match negotiation with
    | .error e =>
      { raisedToCaller := none, reported := some ("[FILE DOWNLOAD ERROR] " ++ e),
        localFile := prior, workersStarted := 0 }
    | .ok (false, _) =>
      { raisedToCaller := none,
        reported := some "[FILE DOWNLOAD ERROR] File is not on the server",
        localFile := prior, workersStarted := 0 }
    | .ok (true, file_size) =>
      if seek_offset file_size < 0 then
        { raisedToCaller := none,
          reported := some "[FILE DOWNLOAD ERROR] negative seek position",
          localFile := some [], workersStarted := 0 }
      else
        { raisedToCaller := none, reported := none,
          localFile := some
            ((List.range chunk_count).foldl
              (apply_chunk file_size chunk_count chunk_data)
              (writeAt [] (seek_offset file_size).toNat [0])),
          workersStarted := chunk_count }

end FileTransfer

namespace FileTransfer

/-- C1: for every totalSize ≥ 0 and chunkCount ≥ 1, the chunk ranges computed by
upload_file and download_file are ordered by start offset, pairwise
non-overlapping, their union is exactly the byte interval [0, totalSize-1]
(empty when totalSize = 0), and the last range ends at totalSize - 1. -/
theorem C1_chunk_plan_partition (S n : ℕ) (hn : 1 ≤ n) :
    (∀ i j : ℕ, i ≤ j → (start_byte S n i : ℤ) ≤ start_byte S n j) ∧
    (∀ i j : ℕ, i < j → j < n → ∀ x : ℤ,
      inRange (chunk_range S n i) x → ¬ inRange (chunk_range S n j) x) ∧
    (∀ x : ℤ, (∃ i, i < n ∧ inRange (chunk_range S n i) x) ↔
      0 ≤ x ∧ x ≤ (S : ℤ) - 1) ∧
    end_byte S n (n - 1) = (S : ℤ) - 1 := by
  have hbS : n * chunk_size S n ≤ S := by
    have h1 : S / n * n ≤ S := Nat.div_mul_le_self S n
    calc n * chunk_size S n = S / n * n := by rw [chunk_size, mul_comm]
    _ ≤ S := h1
  refine ⟨?_, ?_, ?_, ?_⟩
  · intro i j hij
    exact_mod_cast Nat.mul_le_mul_right _ hij
  · intro i j hij hjn x hx hy
    have hi : i ≠ n - 1 := by omega
    simp only [inRange, chunk_range] at hx hy
    obtain ⟨hx1, hx2⟩ := hx
    obtain ⟨hy1, hy2⟩ := hy
    rw [end_byte, if_neg hi] at hx2
    have key : start_byte S n i + chunk_size S n ≤ start_byte S n j := by
      have h2 : (i + 1) * chunk_size S n ≤ j * chunk_size S n :=
        Nat.mul_le_mul_right _ (by omega)
      have h3 : start_byte S n i + chunk_size S n = (i + 1) * chunk_size S n := by
        rw [start_byte]; ring
      rw [h3, start_byte]
      exact h2
    have key2 : (start_byte S n i : ℤ) + chunk_size S n ≤ start_byte S n j := by
      exact_mod_cast key
    linarith
  · intro x
    constructor
    · rintro ⟨i, hin, hx⟩
      simp only [inRange, chunk_range] at hx
      obtain ⟨hx1, hx2⟩ := hx
      refine ⟨le_trans (by positivity) hx1, ?_⟩
      by_cases hi : i = n - 1
      · rw [end_byte, if_pos hi] at hx2
        exact hx2
      · rw [end_byte, if_neg hi] at hx2
        have h4 : start_byte S n i + chunk_size S n ≤ S := by
          have h5 : (i + 1) * chunk_size S n ≤ n * chunk_size S n :=
            Nat.mul_le_mul_right _ (by omega)
          have h6 : start_byte S n i + chunk_size S n = (i + 1) * chunk_size S n := by
            rw [start_byte]; ring
          omega
        have h7 : (start_byte S n i : ℤ) + chunk_size S n ≤ S := by exact_mod_cast h4
        linarith
    · rintro ⟨hx0, hxS⟩
      simp only [inRange, chunk_range]
      have hS1 : 1 ≤ S := by
        have h8 : (1 : ℤ) ≤ S := by linarith
        exact_mod_cast h8
      by_cases hb0 : chunk_size S n = 0
      · refine ⟨n - 1, by omega, ?_, ?_⟩
        · have h9 : start_byte S n (n - 1) = 0 := by
            rw [start_byte, hb0]; ring
          rw [h9]
          exact_mod_cast hx0
        · rw [end_byte, if_pos rfl]
          exact hxS
      · have hxeq : ((x.toNat : ℤ)) = x := Int.toNat_of_nonneg hx0
        have hxS2 : x.toNat < S := by omega
        by_cases hq : x.toNat / chunk_size S n < n - 1
        · refine ⟨x.toNat / chunk_size S n, by omega, ?_, ?_⟩
          · have h10 : x.toNat / chunk_size S n * chunk_size S n ≤ x.toNat :=
              Nat.div_mul_le_self _ _
            have h11 : (start_byte S n (x.toNat / chunk_size S n) : ℤ) ≤ x.toNat := by
              rw [start_byte]
              exact_mod_cast h10
            omega
          · have hne : x.toNat / chunk_size S n ≠ n - 1 := by omega
            rw [end_byte, if_neg hne]
            have h12 : x.toNat / chunk_size S n * chunk_size S n + x.toNat % chunk_size S n
                = x.toNat := Nat.div_add_mod' x.toNat (chunk_size S n)
            have h13 : x.toNat % chunk_size S n < chunk_size S n :=
              Nat.mod_lt _ (by omega)
            have h14 : x.toNat < start_byte S n (x.toNat / chunk_size S n) + chunk_size S n := by
              rw [start_byte]
              omega
            have h15 : (x.toNat : ℤ) <
                (start_byte S n (x.toNat / chunk_size S n) : ℤ) + chunk_size S n := by
              exact_mod_cast h14
            omega
        · refine ⟨n - 1, by omega, ?_, ?_⟩
          · have h16 : (n - 1) * chunk_size S n ≤ x.toNat / chunk_size S n * chunk_size S n :=
              Nat.mul_le_mul_right _ (by omega)
            have h17 : x.toNat / chunk_size S n * chunk_size S n ≤ x.toNat :=
              Nat.div_mul_le_self _ _
            have h18 : (start_byte S n (n - 1) : ℤ) ≤ x.toNat := by
              rw [start_byte]
              exact_mod_cast le_trans h16 h17
            omega
          · rw [end_byte, if_pos rfl]
            exact hxS
  · rw [end_byte, if_pos rfl]

/-- C1 witness: the partition theorem applied to a 10-byte file in 4 chunks. -/
theorem C1_chunk_plan_partition_witness :
    1 ≤ 4 ∧ end_byte 10 4 (4 - 1) = (10 : ℤ) - 1 :=
  ⟨by decide, (C1_chunk_plan_partition 10 4 (by decide)).2.2.2⟩

/-- C2: with base = totalSize div chunkCount, chunk i (i < chunkCount - 1) is
exactly [i*base, (i+1)*base - 1], the final chunk is
[(chunkCount-1)*base, totalSize-1], and for totalSize = 10, chunkCount = 4 the
ranges are [0,1], [2,3], [4,5], [6,9]. -/
theorem C2_chunk_formula (S n i : ℕ) (hS : 1 ≤ S) (hn : 1 ≤ n) :
    (i < n - 1 → chunk_range S n i =
      (((i * chunk_size S n : ℕ) : ℤ), ((i : ℤ) + 1) * chunk_size S n - 1)) ∧
    chunk_range S n (n - 1) = ((((n - 1) * chunk_size S n : ℕ) : ℤ), (S : ℤ) - 1) ∧
    chunkRanges 10 4 = [(0, 1), (2, 3), (4, 5), (6, 9)] := by
  refine ⟨?_, ?_, by decide⟩
  · intro hi
    have hne : i ≠ n - 1 := by omega
    simp only [chunk_range, start_byte, end_byte, if_neg hne, Prod.mk.injEq]
    refine ⟨trivial, ?_⟩
    push_cast
    ring
  · rw [chunk_range, end_byte, if_pos rfl, start_byte]

/-- C2 witness: the formula theorem applied at totalSize 10, chunkCount 4, i 1. -/
theorem C2_chunk_formula_witness :
    1 ≤ 10 ∧ 1 ≤ 4 ∧ chunkRanges 10 4 = [(0, 1), (2, 3), (4, 5), (6, 9)] :=
  ⟨by decide, by decide, (C2_chunk_formula 10 4 1 (by decide) (by decide)).2.2⟩

/-- Helper for C5: when the stream closes before delivering enough bytes, the
recv loop raises ConnectionError, for every packet schedule. -/
theorem recv_all_closes_short (N : ℕ) :
    ∀ (rem sched : List ℕ) (length : ℕ) (data : List ℕ), rem.length ≤ N →
      rem.length + data.length < length → recv_all rem sched length data = none := by
  induction N with
  | zero =>
    intro rem sched length data hN hlt
    have hrem : rem = [] := List.length_eq_zero.mp (Nat.le_zero.mp hN)
    subst hrem
    rw [recv_all.eq_def, dif_pos (by simp only [List.length_nil] at hlt; omega)]
  | succ N ih =>
    intro rem sched length data hN hlt
    rw [recv_all.eq_def, dif_pos (by omega)]
    cases rem with
    | nil => rfl
    | cons b rest =>
      apply ih
      · simp only [List.length_drop, List.length_cons]
        simp only [List.length_cons] at hN hlt
        omega
      · simp only [List.length_drop, List.length_cons, List.length_append,
          List.length_take]
        simp only [List.length_cons] at hlt
        omega

/-- Helper for C5: when the stream delivers at least the requested number of
bytes, the recv loop returns exactly the requested prefix, for every packet
schedule. -/
theorem recv_all_collects (N : ℕ) :
    ∀ (rem sched : List ℕ) (length : ℕ) (data : List ℕ), rem.length ≤ N →
      data.length ≤ length → length ≤ rem.length + data.length →
      recv_all rem sched length data = some (data ++ rem.take (length - data.length)) := by
  induction N with
  | zero =>
    intro rem sched length data hN h1 h2
    have hrem : rem = [] := List.length_eq_zero.mp (Nat.le_zero.mp hN)
    subst hrem
    simp only [List.length_nil, Nat.zero_add] at h2
    rw [recv_all.eq_def, dif_neg (by omega)]
    simp only [List.take_nil, List.append_nil]
  | succ N ih =>
    intro rem sched length data hN h1 h2
    by_cases hfull : data.length < length
    · rw [recv_all.eq_def, dif_pos hfull]
      cases rem with
      | nil =>
        simp only [List.length_nil, Nat.zero_add] at h2
        omega
      | cons b rest =>
        simp only [List.length_cons] at hN h2
        have hreq1 : 1 ≤ length - data.length := by omega
        set K := min (length - data.length) (max 1 (sched.headD (length - data.length)))
          with hKdef
        have hK1 : 1 ≤ K := le_min hreq1 (le_max_left 1 _)
        have hKle : K ≤ length - data.length := min_le_left _ _
        have hKlist : K ≤ rest.length + 1 := by omega
        have hlen_take : ((b :: rest).take K).length = K := by
          rw [List.length_take]
          simp only [List.length_cons]
          exact min_eq_left hKlist
        show recv_all ((b :: rest).drop K) sched.tail length (data ++ (b :: rest).take K) =
          some (data ++ (b :: rest).take (length - data.length))
        rw [ih ((b :: rest).drop K) sched.tail length (data ++ (b :: rest).take K)
          (by rw [List.length_drop]; simp only [List.length_cons]; omega)
          (by rw [List.length_append, hlen_take]; omega)
          (by
            rw [List.length_drop, List.length_append, hlen_take]
            simp only [List.length_cons]
            omega)]
        rw [List.append_assoc, List.length_append, hlen_take]
        have harg : length - (data.length + K) = (length - data.length) - K := by omega
        rw [harg, ← List.take_add]
        have hsum : K + ((length - data.length) - K) = length - data.length := by omega
        rw [hsum]
    · rw [recv_all.eq_def, dif_neg hfull]
      have h0 : length - data.length = 0 := by omega
      rw [h0]
      simp only [List.take_zero, List.append_nil]

/-- C5: for every n ≥ 1, recv_all on a stream that closes after delivering
k < n bytes fails with the ConnectionError (`none`), and never returns a
buffer shorter than n; on a stream delivering at least n bytes it returns
exactly the first n bytes — whatever packet sizes the network chooses. -/
theorem C5_recv_exact (rem sched : List ℕ) (n : ℕ) (hn : 1 ≤ n) :
    (rem.length < n → recv_all rem sched n [] = none) ∧
    (n ≤ rem.length →
      recv_all rem sched n [] = some (rem.take n) ∧ (rem.take n).length = n) := by
  constructor
  · intro hshort
    exact recv_all_closes_short rem.length rem sched n [] le_rfl
      (by simp only [List.length_nil]; omega)
  · intro hlong
    have h := recv_all_collects rem.length rem sched n [] le_rfl
      (by simp only [List.length_nil]; omega)
      (by simp only [List.length_nil]; omega)
    constructor
    · simpa using h
    · rw [List.length_take]
      omega

/-- C5 witness: a stream closing after 2 of 3 requested bytes raises; a stream
with 4 bytes yields exactly the 3 requested. -/
theorem C5_recv_exact_witness :
    recv_all [5, 6] [1] 3 [] = none ∧ recv_all [5, 6, 7, 8] [1] 3 [] = some [5, 6, 7] := by
  refine ⟨(C5_recv_exact [5, 6] [1] 3 (by decide)).1 (by decide), ?_⟩
  exact ((C5_recv_exact [5, 6, 7, 8] [1] 3 (by decide)).2 (by decide)).1

/-- C6: encoding a command code and a payload length into the fixed 5-byte
header exactly as send_command does, then decoding that header, yields back the
original command and length, for every command below 256 and length below 2^32. -/
theorem C6_header_roundtrip (command data_length : ℕ) (hc : command < 256)
    (hl : data_length < 2 ^ 32) :
    (send_command_bytes command data_length).bind decode_header =
      some (command, data_length) := by
  unfold send_command_bytes
  rw [if_pos ⟨hc, hl⟩]
  show decode_header (command :: u32be data_length) = some (command, data_length)
  unfold u32be decode_header
  simp only [Option.some.injEq, Prod.mk.injEq]
  exact ⟨trivial, by omega⟩

/-- C6 witness: round-trip at command 3 with payload length 70000. -/
theorem C6_header_roundtrip_witness :
    3 < 256 ∧ 70000 < 2 ^ 32 ∧
      (send_command_bytes 3 70000).bind decode_header = some (3, 70000) :=
  ⟨by decide, by decide, C6_header_roundtrip 3 70000 (by decide) (by decide)⟩

/-- C3: the spec requires a chunk whose planned range has start > end to be
treated as a zero-length transfer that the worker completes without failing.
The code instead fails on every such chunk: with totalSize = 1, chunkCount = 3,
chunk 0 gets the range [0, -1], and the worker dies in send_int, because
struct.pack('!I', -1) raises struct.error before the data phase is reached; the
exception is caught and reported, and the chunk is never transferred. -/
theorem C3_zero_length_chunk_fails :
    (1 : ℕ) < 3 ∧
    end_byte 1 3 0 < (start_byte 1 3 0 : ℤ) ∧
    pack_u32 (end_byte 1 3 0) = none ∧
    ∀ file_data : List ℕ,
      upload_chunk file_data (start_byte 1 3 0) (end_byte 1 3 0) =
        .errorCaught "struct.error: argument out of range" := by
  refine ⟨by decide, by decide, by decide, ?_⟩
  intro file_data
  rfl

/-- C4: the spec requires a size-0 download to define a zero-length destination
file and complete without attempting a negative seek offset.  The code does
create the empty file (mode wb truncates on open), but then runs
file.seek(0 - 1) = file.seek(-1), which raises ValueError; download_file
reports the failure and launches no chunk worker. -/
theorem C4_size_zero_download_aborts :
    seek_offset 0 = -1 ∧
    download_file true (.ok (true, 0)) 4 (some [1, 2, 3]) (fun _ => none) =
      { raisedToCaller := none,
        reported := some "[FILE DOWNLOAD ERROR] negative seek position",
        localFile := some [], workersStarted := 0 } :=
  ⟨rfl, rfl⟩

/-- C7 counterexample: the two precondition failures are NOT raised to the
caller.  A true exists-flag on upload and a missing destination directory on
download both end with raisedToCaller = none: the exceptions are caught by the
operations own catch-all handler and only printed. -/
theorem C7_precondition_not_raised_cex :
    (upload_file (.ok true) 4).raisedToCaller = none ∧
    (upload_file (.ok true) 4).reported =
      some "[FILE UPLOAD ERROR]: File has already existed on the server" ∧
    (download_file false (.ok (true, 5)) 4 none fun _ => none).raisedToCaller = none ∧
    (download_file false (.ok (true, 5)) 4 none fun _ => none).reported =
      some "[FILE DOWNLOAD ERROR] Destination folder does not exist" :=
  ⟨rfl, rfl, rfl, rfl⟩

/-- C7 amended: no failure at all is raised to the operations caller — the two
precondition failures included.  Every failure, precondition, transport or
chunk, is caught inside upload_file and download_file and reported as a
printed message, and the operation returns normally. -/
theorem C7_all_failures_reported :
    (∀ (negotiation : Except String Bool) (chunk_count : ℕ),
      (upload_file negotiation chunk_count).raisedToCaller = none) ∧
    (∀ (destExists : Bool) (negotiation : Except String (Bool × ℕ)) (chunk_count : ℕ)
      (prior : Option (List ℕ)) (chunk_data : ℕ → Option (List ℕ)),
      (download_file destExists negotiation chunk_count prior chunk_data).raisedToCaller
        = none) ∧
    (∀ chunk_count : ℕ, (upload_file (.ok true) chunk_count).reported =
      some "[FILE UPLOAD ERROR]: File has already existed on the server") ∧
    (∀ (negotiation : Except String (Bool × ℕ)) (chunk_count : ℕ)
      (prior : Option (List ℕ)) (chunk_data : ℕ → Option (List ℕ)),
      (download_file false negotiation chunk_count prior chunk_data).reported =
        some "[FILE DOWNLOAD ERROR] Destination folder does not exist") := by
  refine ⟨?_, ?_, ?_, ?_⟩
  · intro negotiation chunk_count
    cases negotiation with
    | error e => rfl
    | ok b => cases b <;> rfl
  · intro destExists negotiation chunk_count prior chunk_data
    cases destExists with
    | false => rfl
    | true =>
      cases negotiation with
      | error e => rfl
      | ok p =>
        obtain ⟨b, file_size⟩ := p
        cases b with
        | false => rfl
        | true =>
          by_cases h : seek_offset file_size < 0 <;>
            simp [download_file, h]
  · intro chunk_count
    rfl
  · intro negotiation chunk_count prior chunk_data
    rfl

/-- C8: when the server answers true (name collision) to REQUEST_UPLOAD, the
try body of upload_file raises FileExistsError before sending the size or
planning chunks, so zero UPLOAD_CHUNK connections are opened and no chunk
worker thread is started; the operation fails with the FileExistsError
message. -/
theorem C8_upload_collision_aborts :
    ∀ chunk_count : ℕ,
      upload_file_body (.ok true) chunk_count =
        .error "File has already existed on the server" ∧
      (upload_file (.ok true) chunk_count).workersStarted = 0 ∧
      (upload_file (.ok true) chunk_count).uploadChunkConnections = 0 ∧
      (upload_file (.ok true) chunk_count).reported =
        some "[FILE UPLOAD ERROR]: File has already existed on the server" :=
  fun _ => ⟨rfl, rfl, rfl, rfl⟩

/-- C9: ping returns false on any transport failure (the exception is caught
and printed, never propagated), and returns the single boolean read from the
server when the exchange succeeds. -/
theorem C9_ping_best_effort :
    (∀ msg : String, ping (.error msg) = false) ∧ (∀ b : Bool, ping (.ok b) = b) :=
  ⟨fun _ => rfl, fun _ => rfl⟩

/-- Helper for C10: when every chunk worker fails, the fold over workers leaves
the preallocated content untouched. -/
theorem apply_chunk_none (file_size chunk_count : ℕ) (cd : ℕ → Option (List ℕ))
    (content : List ℕ) (i : ℕ) (h : cd i = none) :
    apply_chunk file_size chunk_count cd content i = content := by
  unfold apply_chunk
  rw [h]

/-- Helper for C10: the worker fold is the identity when every worker fails. -/
theorem download_fold_failed (file_size chunk_count : ℕ) (cd : ℕ → Option (List ℕ))
    (h : ∀ i, cd i = none) (l : List ℕ) (init : List ℕ) :
    l.foldl (apply_chunk file_size chunk_count cd) init = init := by
  induction l generalizing init with
  | nil => rfl
  | cons a t ih =>
    rw [List.foldl_cons, apply_chunk_none file_size chunk_count cd init a (h a)]
    exact ih init

/-- C10: when a local file with the requested name already exists, a download
whose negotiation succeeds truncates it unconditionally (open mode wb) and
replaces its content with the zero-fill preallocation of the negotiated size;
the prior content is not preserved even when every chunk transfer fails. -/
theorem C10_download_truncates (file_size chunk_count : ℕ) (prior : List ℕ)
    (chunk_data : ℕ → Option (List ℕ)) (hS : 1 ≤ file_size)
    (hfail : ∀ i, chunk_data i = none) (hne : prior ≠ List.replicate file_size 0) :
    (download_file true (.ok (true, file_size)) chunk_count (some prior)
        chunk_data).localFile = some (List.replicate file_size 0) ∧
    (download_file true (.ok (true, file_size)) chunk_count (some prior)
        chunk_data).localFile ≠ some prior := by
  have hseek : ¬ seek_offset file_size < 0 := by unfold seek_offset; omega
  have htn : (seek_offset file_size).toNat = file_size - 1 := by
    unfold seek_offset; omega
  have hpre : writeAt [] (seek_offset file_size).toNat [0] =
      List.replicate file_size 0 := by
    rw [htn]
    unfold writeAt
    simp only [List.take_nil, List.drop_nil, List.length_nil, Nat.sub_zero,
      List.nil_append, List.append_nil]
    rw [← List.replicate_succ']
    congr 1
    omega
  have hstep : download_file true (.ok (true, file_size)) chunk_count (some prior)
      chunk_data =
      { raisedToCaller := none, reported := none,
        localFile := some
          ((List.range chunk_count).foldl
            (apply_chunk file_size chunk_count chunk_data)
            (writeAt [] (seek_offset file_size).toNat [0])),
        workersStarted := chunk_count } := by
    unfold download_file
    rw [if_neg (by simp)]
    exact if_neg hseek
  have hmain : (download_file true (.ok (true, file_size)) chunk_count (some prior)
      chunk_data).localFile = some (List.replicate file_size 0) := by
    rw [hstep]
    show some ((List.range chunk_count).foldl
      (apply_chunk file_size chunk_count chunk_data)
      (writeAt [] (seek_offset file_size).toNat [0])) =
      some (List.replicate file_size 0)
    rw [hpre, download_fold_failed file_size chunk_count chunk_data hfail]
  refine ⟨hmain, ?_⟩
  rw [hmain]
  intro hcontra
  exact hne (Option.some.inj hcontra).symm

/-- C10 witness: a 4-byte local file [7,7,7,7] is replaced by the 3-byte
zero fill when a size-3 download is negotiated and every chunk fails. -/
theorem C10_download_truncates_witness :
    1 ≤ 3 ∧
    (download_file true (.ok (true, 3)) 2 (some [7, 7, 7, 7]) fun _ => none).localFile =
      some (List.replicate 3 0) :=
  ⟨by decide,
    (C10_download_truncates 3 2 [7, 7, 7, 7] (fun _ => none) (by decide)
      (fun _ => rfl) (by decide)).1⟩

end FileTransfer
